import Mathlib

/-!
Verification development for the TinyRAG pipeline (notebook `RAG.ipynb`).

The development shallowly embeds the pure core of the notebook:
* `ReadFiles.get_chunk` — token-budgeted text chunking with overlap;
* `BaseEmbeddings.cosine_similarity` — guarded cosine similarity;
* `VectorStore` — `get_vector`, `persist`, `load_vector`, `query`.

Python strings are modelled at the code-point level (`List Char`); Python
integers are `Nat` (all indices and lengths in scope are non-negative, and
ℕ truncated subtraction agrees with Python wherever the theorems'
hypotheses hold).  The tiktoken encoder is an opaque parameter
`tok : String → ℕ` giving the encoded token length of a string.
-/

/-- The set of characters Python treats as whitespace for `str.rstrip()` /
`str.isspace()` (ASCII subset; the pipeline's data is in this range). -/
def isPyWs (c : Char) : Bool :=
  c = ' ' || c = '\t' || c = '\n' || c = '\r' || c = '\x0b' || c = '\x0c'

/-- Python `s.rstrip()`: drop trailing whitespace. -/
def rstrip (s : String) : String :=
  ((s.toList.reverse.dropWhile isPyWs).reverse).asString

/-- Python `s.isspace()`: `True` iff `s` is non-empty and all whitespace. -/
def pyIsspace (s : String) : Bool :=
  !s.toList.isEmpty && s.toList.all isPyWs

/-- Python slice `s[a:b]` for `0 ≤ a`, `0 ≤ b` (clamping at the ends). -/
def pySlice (s : String) (a b : ℕ) : String :=
  ((s.toList.drop a).take (b - a)).asString

/-- Python slice `s[-c:]`: for `c = 0` this is the whole string (Python
`-0 = 0`), otherwise the trailing `min c (length s)` characters. -/
def pyNegSuffix (c : ℕ) (s : String) : String :=
  if c = 0 then s else ((s.toList.drop (s.length - c))).asString

/-- Python `s.replace(' ', '')`: remove every space character. -/
def removeSpaces (s : String) : String :=
  (s.toList.filter (fun c => c ≠ ' ')).asString

/-- Python `text.splitlines()` restricted to `'\n'` separators (the only
line separator occurring in the pipeline's inputs): split on `'\n'`,
without a trailing empty piece for a trailing newline, and `[]` on `""`. -/
def splitlines (s : String) : List String :=
  if s = "" then []
  else
    let cs := s.toList
    let raw := if cs.getLast? = some '\n' then cs.dropLast else cs
    (raw.splitOn '\n').map (fun l => l.asString)

/-- The inner `while` loop of the oversized-line branch of
`ReadFiles.get_chunk`:

    while not line[start:end].rstrip().isspace():
        start += 1
        end += 1
        if start >= line_len:
            break

encoded with explicit fuel (the loop advances `start` by one per
iteration and exits as soon as `start ≥ line_len`, so
`line_len - start + 1` iterations always suffice). Returns the final
`(start, end)` pair. -/
def whileLoop (line : String) (lineLen : ℕ) : ℕ → ℕ → ℕ → ℕ × ℕ
  | 0, s, e => (s, e)
  | fuel + 1, s, e =>
    if pyIsspace (rstrip (pySlice line s e)) then (s, e)
    else if s + 1 ≥ lineLen then (s + 1, e + 1)
    else whileLoop line lineLen fuel (s + 1) (e + 1)

/-- Entry point for `whileLoop` with enough fuel for every in-domain call. -/
def adjustBounds (line : String) (lineLen s e : ℕ) : ℕ × ℕ :=
  whileLoop line lineLen (lineLen - s + 1) s e

/-- The oversized-line branch of `ReadFiles.get_chunk` (entered when
`line_len > max_token_len`):

    num_chunks = (line_len + token_len - 1) // token_len
    for i in range(num_chunks):
        start = i * token_len
        end = start + token_len
        while ...                       # see whileLoop
        curr_chunk = curr_chunk[-cover_content:] + line[start:end]
        chunk_text.append(curr_chunk)
    start = (num_chunks - 1) * token_len
    curr_chunk = curr_chunk[-cover_content:] + line[start:end]
    chunk_text.append(curr_chunk)

Returns the updated `(curr_chunk, chunk_text)`; the fold also threads the
value of `end` left over from the last loop iteration, which the post-loop
statement reuses. -/
def oversizedSplit (line : String) (lineLen tokenLen coverContent : ℕ)
    (currChunk : String) (chunkText : List String) : String × List String :=
  let numChunks := (lineLen + tokenLen - 1) / tokenLen
  let st := (List.range numChunks).foldl
    (fun (st : String × List String × ℕ) i =>
      let se := adjustBounds line lineLen (i * tokenLen) (i * tokenLen + tokenLen)
      let c := pyNegSuffix coverContent st.1 ++ pySlice line se.1 se.2
      (c, st.2.1 ++ [c], se.2))
    (currChunk, chunkText, 0)
  let c := pyNegSuffix coverContent st.1 ++
    pySlice line ((numChunks - 1) * tokenLen) st.2.2
  (c, st.2.1 ++ [c])

/-- One iteration of the `for line in lines` loop of `ReadFiles.get_chunk`,
acting on the state `(chunk_text, curr_len, curr_chunk)`:

    line = line.replace(' ', '')          # see removeSpaces
    line_len = len(enc.encode(line))
    if line_len > max_token_len:
        ...                             # see oversizedSplit
    if curr_len + line_len <= token_len:
        curr_chunk += line
        curr_chunk += '\n'
        curr_len += line_len
        curr_len += 1
    else:
        chunk_text.append(curr_chunk)
        curr_chunk = curr_chunk[-cover_content:]+line
        curr_len = line_len + cover_content
-/
def lineStep (tok : String → ℕ) (maxTokenLen coverContent : ℕ)
    (st : List String × ℕ × String) (rawLine : String) :
    List String × ℕ × String :=
  let line := removeSpaces rawLine
  let lineLen := tok line
  let tokenLen := maxTokenLen - coverContent
  let st1 :=
    if lineLen > maxTokenLen then
      let r := oversizedSplit line lineLen tokenLen coverContent st.2.2 st.1
      (r.2, st.2.1, r.1)
    else st
  if st1.2.1 + lineLen ≤ tokenLen then
    (st1.1, st1.2.1 + lineLen + 1, st1.2.2 ++ line ++ "\n")
  else
    (st1.1 ++ [st1.2.2], lineLen + coverContent, pyNegSuffix coverContent st1.2.2 ++ line)

/-- `ReadFiles.get_chunk(text, max_token_len, cover_content)`, parametrised
by the token-length function `tok` of the tiktoken encoder. -/
def get_chunk (tok : String → ℕ) (text : String)
    (maxTokenLen coverContent : ℕ) : List String :=
  let lines := splitlines text
  let st := lines.foldl (lineStep tok maxTokenLen coverContent) ([], 0, "")
  if st.2.2 = "" then st.1 else st.1 ++ [st.2.2]

/-- Encoded token length of the whole (line-reassembled, whitespace-stripped)
text: the sum of the per-line token lengths of the stripped lines plus one
token per interior newline.  For the character-count tokenizer this is the
length of the stripped text. -/
def encTotal (tok : String → ℕ) (text : String) : ℕ :=
  let ls := (splitlines text).map removeSpaces
  (ls.map tok).sum + (ls.length - 1)

/-- The character-count tokenizer used in the spec's scenarios: every
character is one token. -/
def charTok (s : String) : ℕ := s.length

/-- `np.dot` on two float vectors: the sum of componentwise products. -/
noncomputable def npDot (v1 v2 : List ℝ) : ℝ :=
  (List.zipWith (fun a b => a * b) v1 v2).sum

/-- `np.linalg.norm`: the Euclidean norm, `sqrt` of the sum of squares. -/
noncomputable def npNorm (v : List ℝ) : ℝ :=
  Real.sqrt ((v.map (fun x => x ^ 2)).sum)

/-- `BaseEmbeddings.cosine_similarity(vectors1, vectors2)`:

    dot_product = np.dot(vectors1, vectors2)
    magnitude = np.linalg.norm(vectors1) * np.linalg.norm(vectors2)
    if not magnitude:
        return 0
    return dot_product / magnitude
-/
noncomputable def cosine_similarity (v1 v2 : List ℝ) : ℝ :=
  let dot_product := npDot v1 v2
  let magnitude := npNorm v1 * npNorm v2
  if magnitude = 0 then 0 else dot_product / magnitude

/-- `VectorStore.get_similarity` just delegates to
`BaseEmbeddings.cosine_similarity`. -/
noncomputable def get_similarity (v1 v2 : List ℝ) : ℝ :=
  cosine_similarity v1 v2

/-- The in-memory state of a `VectorStore`: the parallel lists
`self.document` and `self.vectors`. -/
structure VectorStore where
  document : List String
  vectors : List (List ℝ)

/-- The interpreter state of `VectorStore.get_vector`'s loop: starting from
`st`, embed each chunk of `ds` in order, appending the vector to
`st.vectors`; stop at the first provider error, leaving the vectors
computed so far in place. -/
def getVectorGo (emb : String → Except ε (List ℝ)) :
    List String → VectorStore → VectorStore × Option ε
  | [], st => (st, none)
  | d :: ds, st =>
    match emb d with
    | Except.ok v => getVectorGo emb ds ⟨st.document, st.vectors ++ [v]⟩
    | Except.error e => (st, some e)

/-- `VectorStore.get_vector(EmbeddingModel)`:

    for doc in self.document:
        self.vectors.append(EmbeddingModel.get_embedding(doc))
    return self.vectors

The embedding provider is modelled as a fallible function
`emb : String → Except ε (List ℝ)`; the result is the final store state
together with the propagated provider error, if any. -/
def get_vector (emb : String → Except ε (List ℝ)) (store : VectorStore) :
    VectorStore × Option ε :=
  getVectorGo emb store.document store

/-- The slice of the filesystem that `persist` / `load_vector` touch: the
storage directory and its two JSON artifacts (absent or present with
parsed content). -/
structure Storage where
  dirExists : Bool
  documentJson : Option (List String)
  vectorsJson : Option (List (List ℝ))

/-- A fresh storage directory: nothing on disk yet. -/
def freshStorage : Storage := ⟨false, none, none⟩

/-- `VectorStore.persist(path)`:

    if not os.path.exists(path):
        os.makedirs(path)
    with open(f"{path}/document.json", 'w', ...) as f:
        json.dump(self.document, f, ...)
    if self.vectors:
        with open(f"{path}/vectors.json", 'w', ...) as f:
            json.dump(self.vectors, f)
-/
def persist (store : VectorStore) (fs : Storage) : Storage :=
  let fs1 : Storage := ⟨true, some store.document, fs.vectorsJson⟩
  if store.vectors.isEmpty then fs1
  else ⟨fs1.dirExists, fs1.documentJson, some store.vectors⟩

/-- `VectorStore.load_vector(path)`: read `vectors.json` and
`document.json`, replacing the in-memory state wholesale; `none` models
the `FileNotFoundError` raised when either artifact is absent. -/
def load_vector (fs : Storage) : Option VectorStore :=
  match fs.vectorsJson, fs.documentJson with
  | some vs, some ds => some ⟨ds, vs⟩
  | _, _ => none

/-- `result = np.array([self.get_similarity(query_vector, vector) for
vector in self.vectors])` in `VectorStore.query`. -/
noncomputable def simList (vectors : List (List ℝ)) (qv : List ℝ) : List ℝ :=
  vectors.map (fun vector => get_similarity qv vector)

/-- `numpy.ndarray.argsort` on a list of similarities: the indices
`0, …, n-1` permuted so that the values are in non-decreasing order
(numpy's tie order is unspecified; a stable sort is one refinement). -/
noncomputable def argsort (xs : List ℝ) : List ℕ :=
  List.insertionSort (fun i j => xs.getD i 0 ≤ xs.getD j 0)
    (List.range xs.length)

/-- Python slice `l[-k:]` for `k : ℕ`: the whole list when `k = 0`
(Python `-0 = 0`), otherwise the trailing `min k (length l)` elements. -/
def pyNegSlice (k : ℕ) (l : List α) : List α :=
  if k = 0 then l else l.drop (l.length - k)

/-- The index list `result.argsort()[-k:][::-1]` selected by
`VectorStore.query`. -/
noncomputable def queryIdx (vectors : List (List ℝ)) (qv : List ℝ) (k : ℕ) :
    List ℕ :=
  (pyNegSlice k (argsort (simList vectors qv))).reverse

/-- `VectorStore.query(query, EmbeddingModel, k)`:

    query_vector = EmbeddingModel.get_embedding(query)
    result = np.array([self.get_similarity(query_vector, vector)
                       for vector in self.vectors])
    return np.array(self.document)[result.argsort()[-k:][::-1]].tolist()

The embedding model is the function `emb` from query text to query
vector. -/
noncomputable def query (document : List String) (vectors : List (List ℝ))
    (emb : String → List ℝ) (q : String) (k : ℕ) : List String :=
  (queryIdx vectors (emb q) k).map (fun i => document.getD i "")

/-- Python `s.startswith(p)` (used to state the overlap invariant). -/
def pyStartswith (s p : String) : Bool :=
  p.toList.isPrefixOf s.toList

/-- Shared helper: when the vector list is non-empty, `persist` writes both
artifacts, so `load_vector` restores the store exactly. -/
lemma load_persist_eq (store : VectorStore) (fs : Storage)
    (h : store.vectors ≠ []) :
    load_vector (persist store fs) = some store := by
  have he : store.vectors.isEmpty = false := by
    cases hv : store.vectors with
    | nil => exact absurd hv h
    | cons a l => rfl
  simp [persist, he, load_vector]

/-- C5: `cosine_similarity` returns `0` whenever either vector has zero
magnitude (so the division is guarded), and otherwise returns
`dot / (‖v1‖ * ‖v2‖)`. -/
theorem cosine_similarity_zero_guard (v1 v2 : List ℝ) :
    ((npNorm v1 = 0 ∨ npNorm v2 = 0) → cosine_similarity v1 v2 = 0) ∧
    (npNorm v1 ≠ 0 → npNorm v2 ≠ 0 →
      cosine_similarity v1 v2 = npDot v1 v2 / (npNorm v1 * npNorm v2)) := by
  constructor
  · intro h
    have hm : npNorm v1 * npNorm v2 = 0 := by
      rcases h with h | h <;> simp [h]
    simp [cosine_similarity, hm]
  · intro h1 h2
    have hm : npNorm v1 * npNorm v2 ≠ 0 := mul_ne_zero h1 h2
    simp [cosine_similarity, hm]

/-- Witness for C5 at the zero vector `[0]` against `[1]`. -/
theorem cosine_similarity_zero_guard_witness :
    npNorm [(0 : ℝ)] = 0 ∧ cosine_similarity [(0 : ℝ)] [(1 : ℝ)] = 0 := by
  have h0 : npNorm [(0 : ℝ)] = 0 := by simp [npNorm]
  exact ⟨h0, (cosine_similarity_zero_guard [(0 : ℝ)] [(1 : ℝ)]).1 (Or.inl h0)⟩

/-- C6 (counterexample): with an empty vector list, `persist` does not write
`vectors.json`, so `load_vector` on the resulting fresh directory raises
(`none`) instead of reproducing the original store. -/
theorem persist_load_empty_vectors_fails :
    load_vector (persist (VectorStore.mk ["a"] []) freshStorage) ≠
      some (VectorStore.mk ["a"] []) := by
  simp [persist, load_vector, freshStorage, List.isEmpty]

/-- C6 (amended): for every store whose vector sequence is non-empty,
`persist` followed by `load_vector` reproduces the chunk and vector
sequences exactly, whatever was previously in the directory. -/
theorem persist_load_roundtrip (store : VectorStore) (fs : Storage)
    (h : store.vectors ≠ []) :
    load_vector (persist store fs) = some store :=
  load_persist_eq store fs h

/-- Witness for C6 on a one-chunk, one-vector store and a fresh directory. -/
theorem persist_load_roundtrip_witness :
    load_vector (persist (VectorStore.mk ["a"] [[(1 : ℝ)]]) freshStorage) =
      some (VectorStore.mk ["a"] [[(1 : ℝ)]]) :=
  persist_load_roundtrip (VectorStore.mk ["a"] [[(1 : ℝ)]]) freshStorage
    (by simp)

/-- C7 (counterexample): with an empty vector list, `persist` leaves a stale
`vectors.json` untouched instead of unconditionally overwriting both
artifacts with the store's contents. -/
theorem persist_empty_vectors_keeps_stale :
    (persist (VectorStore.mk ["a"] [])
        (Storage.mk true none (some [[(1 : ℝ)]]))).vectorsJson =
      some [[(1 : ℝ)]] ∧
    (persist (VectorStore.mk ["a"] [])
        (Storage.mk true none (some [[(1 : ℝ)]]))).vectorsJson ≠
      some ([] : List (List ℝ)) := by
  constructor <;> simp [persist, List.isEmpty]

/-- C7 (amended): `persist` marks the directory as existing and always
writes `document.json`; it writes `vectors.json` (overwriting whatever was
there) exactly when the vector list is non-empty, and otherwise leaves the
old `vectors.json` in place. -/
theorem persist_spec (store : VectorStore) (fs : Storage) :
    (persist store fs).dirExists = true ∧
    (persist store fs).documentJson = some store.document ∧
    (persist store fs).vectorsJson =
      (if store.vectors.isEmpty then fs.vectorsJson else some store.vectors) := by
  by_cases h : store.vectors.isEmpty <;> simp [persist, h]

/-- C2 (counterexample): the empty text has encoded length `0 ≤ T - C`, yet
`get_chunk` returns no chunk at all rather than exactly one. -/
theorem get_chunk_empty_text_no_chunk :
    encTotal charTok "" ≤ 10 - 2 ∧ get_chunk charTok "" 10 2 = [] ∧
    (get_chunk charTok "" 10 2).length ≠ 1 := by
  refine ⟨by decide, by decide, by decide⟩

/-- C3: on the single 9-character line `"abcdefghi"` with `T = 5`, `C = 2`
and the character-count tokenizer, the code produces
`["", "", "", "ghi", "ghi", "hiabcdefghi"]`; chunk 4 (`"ghi"`) does not
begin with the trailing 2-character suffix (`"hi"`) of chunk 3 (`"ghi"`),
so the overlap invariant fails.  (The oversized-line branch's `while`
condition `not line[start:end].rstrip().isspace()` is always true, the
post-loop statement re-appends the final segment, and control then falls
through to the accumulation branch — the slip flagged in the design
notes.) -/
theorem get_chunk_overlap_violation :
    get_chunk charTok "abcdefghi" 5 2 =
      ["", "", "", "ghi", "ghi", "hiabcdefghi"] ∧
    pyStartswith ((get_chunk charTok "abcdefghi" 5 2).getD 4 "")
      (pyNegSuffix 2 ((get_chunk charTok "abcdefghi" 5 2).getD 3 "")) =
      false := by
  refine ⟨by decide, by decide⟩

/-- C4: on the single 8-character line `"abcdefgh"` with `T = 5`, `C = 2`
and the character-count tokenizer, the oversized-line branch does not emit
the line's `T - C`-wide sub-segments: the in-loop iterations emit three
chunks containing no text of the line at all (the `while` loop always runs
`start` past the end), the post-loop statement duplicates the final
segment `"gh"`, and the accumulation branch then emits a further chunk
derived from the same line. -/
theorem get_chunk_oversized_duplicate :
    get_chunk charTok "abcdefgh" 5 2 =
      ["", "", "", "gh", "gh", "ghabcdefgh"] ∧
    (get_chunk charTok "abcdefgh" 5 2).count "gh" = 2 ∧
    (get_chunk charTok "abcdefgh" 5 2).take 3 = ["", "", ""] := by
  refine ⟨by decide, by decide, by decide⟩

/-- Interpreter for `get_vector`'s loop, all-success case: each chunk's
embedding is appended in document order and no error is reported. -/
lemma getVectorGo_ok {ε : Type} (emb : String → Except ε (List ℝ))
    (f : String → List ℝ) :
    ∀ (ds : List String) (st : VectorStore),
      (∀ d ∈ ds, emb d = Except.ok (f d)) →
      getVectorGo emb ds st = (⟨st.document, st.vectors ++ ds.map f⟩, none) := by
  intro ds
  induction ds with
  | nil => intro st h; simp [getVectorGo]
  | cons d ds ih =>
    intro st h
    have hd : emb d = Except.ok (f d) := h d (by simp)
    simp only [getVectorGo, hd]
    rw [ih ⟨st.document, st.vectors ++ [f d]⟩ (fun p hp => h p (by simp [hp]))]
    simp

/-- Interpreter for `get_vector`'s loop, first-failure case: the error is
propagated and exactly the embeddings of the chunks before the failing
one have been appended. -/
lemma getVectorGo_error {ε : Type} (emb : String → Except ε (List ℝ))
    (f : String → List ℝ) (d : String) (e : ε) (rest : List String)
    (hd : emb d = Except.error e) :
    ∀ (pre : List String) (st : VectorStore),
      (∀ p ∈ pre, emb p = Except.ok (f p)) →
      getVectorGo emb (pre ++ d :: rest) st =
        (⟨st.document, st.vectors ++ pre.map f⟩, some e) := by
  intro pre
  induction pre with
  | nil => intro st h; simp [getVectorGo, hd]
  | cons p pre ih =>
    intro st h
    have hp : emb p = Except.ok (f p) := h p (by simp)
    simp only [List.cons_append, getVectorGo, hp, List.append_eq]
    rw [ih ⟨st.document, st.vectors ++ [f p]⟩ (fun q hq => h q (by simp [hq]))]
    simp

/-- C8: `get_vector` invokes the embedding provider once per chunk in
document order, appending each vector; if the provider fails on some
chunk, that error propagates to the caller and the vectors computed for
the earlier chunks remain in the store (fail fast, no rollback). -/
theorem get_vector_spec {ε : Type} (emb : String → Except ε (List ℝ))
    (f : String → List ℝ) (store : VectorStore) :
    ((∀ d ∈ store.document, emb d = Except.ok (f d)) →
      get_vector emb store =
        (⟨store.document, store.vectors ++ store.document.map f⟩, none)) ∧
    (∀ pre d post e, store.document = pre ++ d :: post →
      (∀ p ∈ pre, emb p = Except.ok (f p)) → emb d = Except.error e →
      get_vector emb store =
        (⟨store.document, store.vectors ++ pre.map f⟩, some e)) := by
  constructor
  · intro h
    exact getVectorGo_ok emb f store.document store h
  · intro pre d post e hsplit hpre hd
    have := getVectorGo_error emb f d e post hd pre store hpre
    rw [get_vector]
    conv_lhs => rw [hsplit]
    exact this

/-- A concrete fallible embedding provider: fails on the chunk `"bad"`. -/
def embFail : String → Except Unit (List ℝ) :=
  fun s => if s = "bad" then Except.error () else Except.ok [1]

/-- Witness for C8: embedding `["a", "bad", "c"]` fails on `"bad"`,
propagates the error, and leaves the vector computed for `"a"` in place. -/
theorem get_vector_spec_witness :
    get_vector embFail (VectorStore.mk ["a", "bad", "c"] []) =
      (VectorStore.mk ["a", "bad", "c"] [[(1 : ℝ)]], some ()) := by
  have h := (get_vector_spec embFail (fun _ => [(1 : ℝ)])
      (VectorStore.mk ["a", "bad", "c"] [])).2
    ["a"] "bad" ["c"] () rfl
    (by intro p hp; simp at hp; subst hp; rfl)
    (by rfl)
  simpa using h

/-- A concrete always-succeeding embedding provider. -/
def embConst : String → Except Unit (List ℝ) :=
  fun _ => Except.ok [1]

/-- C9 (counterexample): `get_vector` appends to `self.vectors` without
clearing it, so calling it twice on the default store leaves one document
chunk paired with two vectors — a reachable state with non-empty vectors
in which `len(document) ≠ len(vectors)`. -/
theorem get_vector_twice_breaks_invariant :
    ((get_vector embConst
        ((get_vector embConst (VectorStore.mk [""] [])).1)).1).vectors ≠ [] ∧
    ((get_vector embConst
          ((get_vector embConst (VectorStore.mk [""] [])).1)).1).document.length ≠
      ((get_vector embConst
          ((get_vector embConst (VectorStore.mk [""] [])).1)).1).vectors.length := by
  constructor <;> simp [get_vector, getVectorGo, embConst]

/-- C9 (amended): a single fully successful `get_vector` on a store with no
vectors yet establishes `len(document) = len(vectors)` with vector `i`
computed from chunk `i`; and `persist` followed by `load_vector` preserves
the invariant whenever the vector list is non-empty (with empty vectors
`load_vector` fails or pairs the documents with stale vectors). -/
theorem vector_count_invariant {ε : Type} (emb : String → Except ε (List ℝ))
    (f : String → List ℝ) (store : VectorStore) (fs : Storage) :
    (store.vectors = [] → (∀ d ∈ store.document, emb d = Except.ok (f d)) →
      ((get_vector emb store).1).document.length =
          ((get_vector emb store).1).vectors.length ∧
        ((get_vector emb store).1).vectors = store.document.map f) ∧
    (store.document.length = store.vectors.length → store.vectors ≠ [] →
      ∀ st2, load_vector (persist store fs) = some st2 →
        st2.document.length = st2.vectors.length) := by
  constructor
  · intro hv h
    rw [get_vector, getVectorGo_ok emb f store.document store h]
    simp [hv]
  · intro hinv hne st2 hload
    rw [load_persist_eq store fs hne] at hload
    cases hload
    exact hinv

/-- Witness for C9: one successful `get_vector` run on a two-chunk store
with empty vectors, then a persist/load round trip, both preserving the
count invariant. -/
theorem vector_count_invariant_witness :
    ((get_vector embConst (VectorStore.mk ["a", "b"] [])).1).document.length =
        ((get_vector embConst (VectorStore.mk ["a", "b"] [])).1).vectors.length ∧
      ((get_vector embConst (VectorStore.mk ["a", "b"] [])).1).vectors =
        ["a", "b"].map (fun _ => [(1 : ℝ)]) :=
  (vector_count_invariant embConst (fun _ => [(1 : ℝ)])
      (VectorStore.mk ["a", "b"] []) freshStorage).1 rfl
    (by intro d hd; rfl)

/-- Concatenation of a list of strings (the shape of the single chunk the
accumulation branch builds line by line). -/
def concatAll (ls : List String) : String :=
  ls.foldr (fun a r => a ++ r) ""

lemma concatAll_nil : concatAll [] = "" := rfl

lemma concatAll_cons (a : String) (l : List String) :
    concatAll (a :: l) = a ++ concatAll l := rfl

lemma splitlines_ne_nil (s : String) (h : s ≠ "") : splitlines s ≠ [] := by
  unfold splitlines
  rw [if_neg h]
  simp only [ne_eq, List.map_eq_nil_iff, List.splitOn, List.splitOnP_ne_nil,
    not_false_eq_true]

/-- While every line fits the running budget, the line loop of `get_chunk`
only ever takes the accumulation branch: no chunk is flushed, the token
counter adds each line's length plus one, and the buffer accumulates the
stripped lines each followed by a newline. -/
lemma foldl_lineStep_accumulate (tok : String → ℕ) (T C : ℕ) :
    ∀ (L : List String) (acc : List String) (n : ℕ) (c : String),
      n + (L.map (fun l => tok (removeSpaces l))).sum + L.length ≤ T - C + 1 →
      L.foldl (lineStep tok T C) (acc, n, c) =
        (acc, n + (L.map (fun l => tok (removeSpaces l))).sum + L.length,
          c ++ concatAll (L.map (fun l => removeSpaces l ++ "\n"))) := by
  intro L
  induction L with
  | nil =>
    intro acc n c h
    simp [concatAll_nil, String.append_empty]
  | cons l L ih =>
    intro acc n c h
    simp only [List.map_cons, List.sum_cons, List.length_cons] at h
    have hT : ¬ tok (removeSpaces l) > T := by
      have := Nat.sub_le T C
      omega
    have hacc : n + tok (removeSpaces l) ≤ T - C := by omega
    have hstep : lineStep tok T C (acc, n, c) l =
        (acc, n + tok (removeSpaces l) + 1, c ++ removeSpaces l ++ "\n") := by
      simp [lineStep, hT, hacc]
    rw [List.foldl_cons, hstep,
      ih acc (n + tok (removeSpaces l) + 1) (c ++ removeSpaces l ++ "\n")
        (by omega)]
    simp only [List.map_cons, List.sum_cons, List.length_cons, Prod.mk.injEq,
      true_and]
    constructor
    · omega
    · simp [concatAll_cons, String.append_assoc]

/-- C2 (amended): for every non-empty text whose encoded token length is at
most `T - C`, `get_chunk` returns exactly one chunk: the input reassembled
line by line with spaces stripped from each line, every line followed by a
newline. -/
theorem get_chunk_single_chunk (tok : String → ℕ) (text : String) (T C : ℕ)
    (hTC : C < T) (hne : text ≠ "") (hlen : encTotal tok text ≤ T - C) :
    get_chunk tok text T C =
      [concatAll ((splitlines text).map (fun l => removeSpaces l ++ "\n"))] := by
  have hL : splitlines text ≠ [] := splitlines_ne_nil text hne
  have hpos : 1 ≤ (splitlines text).length := List.length_pos.mpr hL
  have hlen' : ((splitlines text).map (fun l => tok (removeSpaces l))).sum +
      ((splitlines text).length - 1) ≤ T - C := by
    have := hlen
    unfold encTotal at this
    simpa [List.map_map, Function.comp] using this
  have hbound : 0 + ((splitlines text).map (fun l => tok (removeSpaces l))).sum +
      (splitlines text).length ≤ T - C + 1 := by omega
  have hnz : concatAll ((splitlines text).map (fun l => removeSpaces l ++ "\n")) ≠ "" := by
    cases hsp : splitlines text with
    | nil => exact absurd hsp hL
    | cons l L =>
      intro heq
      rw [List.map_cons, concatAll_cons] at heq
      have := congrArg String.length heq
      simp [String.length_append] at this
      exact absurd this.1.2 (by decide)
  have hfold := foldl_lineStep_accumulate tok T C (splitlines text) [] 0 "" hbound
  simp only [get_chunk, hfold, String.empty_append]
  rw [if_neg hnz]
  simp

/-- Witness for C2: the spec's scenario — chunking `"a\nb\nc"` with
`T = 10`, `C = 2` under the character-count tokenizer yields the single
chunk `"a\nb\nc\n"`. -/
theorem get_chunk_single_chunk_witness :
    (2 < 10 ∧ "a\nb\nc" ≠ "" ∧ encTotal charTok "a\nb\nc" ≤ 10 - 2) ∧
      get_chunk charTok "a\nb\nc" 10 2 = ["a\nb\nc\n"] := by
  refine ⟨⟨by decide, by decide, by decide⟩, ?_⟩
  have h := get_chunk_single_chunk charTok "a\nb\nc" 10 2 (by decide) (by decide)
    (by decide)
  rw [h]
  rfl

lemma argsort_perm_range (xs : List ℝ) : (argsort xs).Perm (List.range xs.length) :=
  List.perm_insertionSort _ _

lemma argsort_sorted (xs : List ℝ) :
    List.Sorted (fun i j => xs.getD i 0 ≤ xs.getD j 0) (argsort xs) := by
  haveI : IsTotal ℕ (fun i j => xs.getD i 0 ≤ xs.getD j 0) :=
    ⟨fun a b => le_total _ _⟩
  haveI : IsTrans ℕ (fun i j => xs.getD i 0 ≤ xs.getD j 0) :=
    ⟨fun a b c hab hbc => le_trans hab hbc⟩
  exact List.sorted_insertionSort _ _

lemma pyNegSlice_sublist (k : ℕ) (l : List α) : (pyNegSlice k l).Sublist l := by
  unfold pyNegSlice
  split
  · exact List.Sublist.refl l
  · exact List.drop_sublist _ l

lemma pyNegSlice_length (k : ℕ) (hk : 1 ≤ k) (l : List α) :
    (pyNegSlice k l).length = min k l.length := by
  have hk0 : k ≠ 0 := by omega
  simp only [pyNegSlice, hk0, if_false, List.length_drop]
  omega

lemma queryIdx_mem_lt (vectors : List (List ℝ)) (qv : List ℝ) (k : ℕ) :
    ∀ i ∈ queryIdx vectors qv k, i < vectors.length := by
  intro i hi
  rw [queryIdx, List.mem_reverse] at hi
  have h2 : i ∈ argsort (simList vectors qv) :=
    (pyNegSlice_sublist k _).mem hi
  have h3 := (argsort_perm_range (simList vectors qv)).mem_iff.mp h2
  rw [List.mem_range] at h3
  simpa [simList] using h3

lemma queryIdx_length (vectors : List (List ℝ)) (qv : List ℝ) (k : ℕ)
    (hk : 1 ≤ k) : (queryIdx vectors qv k).length = min k vectors.length := by
  rw [queryIdx, List.length_reverse, pyNegSlice_length k hk,
    (argsort_perm_range _).length_eq, List.length_range]
  simp [simList]

lemma queryIdx_sorted (vectors : List (List ℝ)) (qv : List ℝ) (k : ℕ) :
    List.Sorted (fun a b => b ≤ a)
      ((queryIdx vectors qv k).map
        (fun i => (simList vectors qv).getD i 0)) := by
  have h1 := argsort_sorted (simList vectors qv)
  have h2 : List.Pairwise
      (fun i j => (simList vectors qv).getD i 0 ≤ (simList vectors qv).getD j 0)
      (pyNegSlice k (argsort (simList vectors qv))) :=
    h1.sublist (pyNegSlice_sublist k _)
  have h3 : List.Pairwise
      (fun i j => (simList vectors qv).getD j 0 ≤ (simList vectors qv).getD i 0)
      (queryIdx vectors qv k) := by
    rw [queryIdx, List.pairwise_reverse]
    exact h2
  exact h3.map _ (fun a b hab => hab)

lemma map_getD_range (l : List α) (d : α) :
    (List.range l.length).map (fun i => l.getD i d) = l := by
  apply List.ext_get
  · simp
  · intro n h1 h2
    simp only [List.length_map, List.length_range] at h1
    simp [List.getD_eq_getElem l d h2, List.getElem?_eq_getElem h2]

/-- C1 (amended): for every requested count `k ≥ 1`, `query` returns
exactly `min k n` chunks (where `n` is the number of stored vectors),
every returned chunk is a stored chunk, and the selected indices are
ordered from most to least cosine-similar to the embedding of the query. -/
theorem query_returns_min_k_sorted (document : List String)
    (vectors : List (List ℝ)) (emb : String → List ℝ) (q : String) (k : ℕ)
    (hk : 1 ≤ k) (hlen : document.length = vectors.length) :
    (query document vectors emb q k).length = min k vectors.length ∧
    List.Sorted (fun a b => b ≤ a)
      ((queryIdx vectors (emb q) k).map
        (fun i => (simList vectors (emb q)).getD i 0)) ∧
    ∀ s ∈ query document vectors emb q k, s ∈ document := by
  refine ⟨?_, queryIdx_sorted vectors (emb q) k, ?_⟩
  · rw [query, List.length_map, queryIdx_length vectors (emb q) k hk]
  · intro s hs
    rw [query, List.mem_map] at hs
    obtain ⟨i, hi, hrfl⟩ := hs
    have hlt : i < document.length := by
      rw [hlen]; exact queryIdx_mem_lt vectors (emb q) k i hi
    rw [← hrfl, List.getD_eq_getElem document "" hlt]
    exact List.getElem_mem hlt

/-- C10: with `k = 0` on a store holding `n ≥ 1` vectors, the slice
`argsort()[-0:]` selects the whole index array, so `query` returns all `n`
stored chunks (a permutation of the document list, ordered from most to
least similar) rather than an empty list. -/
theorem query_k_zero_returns_all (document : List String)
    (vectors : List (List ℝ)) (emb : String → List ℝ) (q : String)
    (h1 : 1 ≤ vectors.length) (hlen : document.length = vectors.length) :
    (query document vectors emb q 0).Perm document ∧
    query document vectors emb q 0 ≠ [] ∧
    List.Sorted (fun a b => b ≤ a)
      ((queryIdx vectors (emb q) 0).map
        (fun i => (simList vectors (emb q)).getD i 0)) := by
  have hxs : (simList vectors (emb q)).length = vectors.length := by
    simp [simList]
  have p1 := ((List.reverse_perm
      (argsort (simList vectors (emb q)))).trans
      (argsort_perm_range _)).map (fun i => document.getD i "")
  rw [hxs, ← hlen, map_getD_range document ""] at p1
  have hq : query document vectors emb q 0 =
      ((argsort (simList vectors (emb q))).reverse).map
        (fun i => document.getD i "") := by
    rw [query, queryIdx]
    simp [pyNegSlice]
  have hperm : (query document vectors emb q 0).Perm document := by
    rw [hq]; exact p1
  refine ⟨hperm, ?_, queryIdx_sorted vectors (emb q) 0⟩
  intro hemp
  have h2 := hperm.length_eq
  rw [hemp] at h2
  simp only [List.length_nil] at h2
  omega

/-- C1 (counterexample): at `k = 0` on a one-vector store, `query` returns
one chunk, not `min 0 1 = 0` chunks — the claim fails for `k = 0`. -/
theorem query_k_zero_breaks_min_count :
    (query ["A"] [[(1 : ℝ)]] (fun _ => [(1 : ℝ)]) "q" 0).length ≠ min 0 1 := by
  have h : query ["A"] [[(1 : ℝ)]] (fun _ => [(1 : ℝ)]) "q" 0 = ["A"] := by
    simp [query, queryIdx, pyNegSlice, argsort, simList]
  rw [h]
  simp

/-- Witness for C1 on a two-vector store with `k = 1`. -/
theorem query_returns_min_k_sorted_witness :
    (query ["A", "B"] [[(1 : ℝ)], [(0 : ℝ)]] (fun _ => [(1 : ℝ)]) "q" 1).length =
        min 1 [[(1 : ℝ)], [(0 : ℝ)]].length ∧
      List.Sorted (fun a b => b ≤ a)
        ((queryIdx [[(1 : ℝ)], [(0 : ℝ)]] [(1 : ℝ)] 1).map
          (fun i => (simList [[(1 : ℝ)], [(0 : ℝ)]] [(1 : ℝ)]).getD i 0)) ∧
      ∀ s ∈ query ["A", "B"] [[(1 : ℝ)], [(0 : ℝ)]] (fun _ => [(1 : ℝ)]) "q" 1,
        s ∈ ["A", "B"] :=
  query_returns_min_k_sorted ["A", "B"] [[(1 : ℝ)], [(0 : ℝ)]]
    (fun _ => [(1 : ℝ)]) "q" 1 (by decide) (by decide)

/-- Witness for C10 on a one-vector store with `k = 0`. -/
theorem query_k_zero_returns_all_witness :
    (query ["A"] [[(1 : ℝ)]] (fun _ => [(1 : ℝ)]) "q" 0).Perm ["A"] ∧
      query ["A"] [[(1 : ℝ)]] (fun _ => [(1 : ℝ)]) "q" 0 ≠ [] ∧
      List.Sorted (fun a b => b ≤ a)
        ((queryIdx [[(1 : ℝ)]] [(1 : ℝ)] 0).map
          (fun i => (simList [[(1 : ℝ)]] [(1 : ℝ)]).getD i 0)) :=
  query_k_zero_returns_all ["A"] [[(1 : ℝ)]] (fun _ => [(1 : ℝ)]) "q"
    (by decide) (by decide)
